import Mathlib

/-!
Shallow embedding of `src/bot.py` (the GTPS voice-points Discord bot):
the SQLite-backed `Database` class, the in-memory voice tracker, the VP
accrual loop and the slash-command handlers, together with theorems about
them.

Modelling conventions:
* SQLite tables are lists of rows; `SELECT ... WHERE id=?` with a unique key
  is `List.find?`, an `UPDATE ... WHERE` is a `List.map` over the rows.
* `time.time()` returns a real number; the code does real division and
  truncation on it, so timestamps fed to the accrual arithmetic are `ℚ`.
  Timestamps stored via `int(time.time())` are `ℕ`.
* A sqlite3 call can raise; no command handler contains `try/except`, so a
  store failure propagates out of the handler.  This is modelled by wrapper
  functions in the `Except` monad taking a `storeOk` flag: when the store is
  down the handler's result is `Except.error`, exactly because nothing in the
  handler catches it.
-/

namespace GtpsVp

/-- Constant `VP_PER_MINUTE = 2` (bot.py line 22). -/
def VP_PER_MINUTE : ℕ := 2

/-- One row of the `vp_balance` table (bot.py lines 48-56). -/
structure BalRow where
  discord_id : ℕ
  discord_name : String
  vp : ℕ
  total_earned : ℕ
  last_seen : ℕ
deriving DecidableEq, Repr

/-- The `vp_balance` table. -/
abbrev BalanceDB := List BalRow

/-- Query `SELECT * FROM vp_balance WHERE discord_id=?` (first row). -/
def findUser (db : BalanceDB) (id : ℕ) : Option BalRow :=
  db.find? (fun r => r.discord_id = id)

/-- Model of `Database.get_or_create_user` (bot.py lines 85-104): returns the existing
row, or inserts a zero-balance row with the given name and `last_seen = now`
and returns it.  The name of an existing row is *not* touched. -/
def get_or_create_user (db : BalanceDB) (id : ℕ) (name : String) (now : ℕ) :
    BalRow × BalanceDB :=
  match findUser db id with
  | some r => (r, db)
  | none =>
      let r : BalRow := ⟨id, name, 0, 0, now⟩
      (r, db ++ [r])

/-- Statement `UPDATE vp_balance SET ... WHERE discord_id=?`: apply `f` to every row
whose key matches. -/
def updateWhere (db : BalanceDB) (id : ℕ) (f : BalRow → BalRow) : BalanceDB :=
  db.map (fun r => if r.discord_id = id then f r else r)

/-- The row change made by `add_vp`: `vp=vp+amount`,
`total_earned=total_earned+amount`, `last_seen=now`. -/
def creditRow (amount now : ℕ) (r : BalRow) : BalRow :=
  { r with vp := r.vp + amount, total_earned := r.total_earned + amount,
           last_seen := now }

/-- Model of `Database.add_vp` (bot.py lines 106-119): `UPDATE vp_balance SET
vp=vp+?, total_earned=total_earned+?, last_seen=? WHERE discord_id=?`, then
`SELECT vp`; returns the new balance, or `0` when no row matched. -/
def add_vp (db : BalanceDB) (id : ℕ) (amount : ℕ) (now : ℕ) : ℕ × BalanceDB :=
  let db' := updateWhere db id (creditRow amount now)
  match findUser db' id with
  | some r => (r.vp, db')
  | none => (0, db')

/-- Model of `Database.get_vp` (bot.py lines 121-127). -/
def get_vp (db : BalanceDB) (id : ℕ) : ℕ :=
  match findUser db id with
  | some r => r.vp
  | none => 0

/-- Model of `Database.spend_vp` (bot.py lines 129-141): refuses (returning `False`,
touching nothing) when there is no row or the row's `vp` is below `amount`;
otherwise `UPDATE vp_balance SET vp=vp-?` and returns `True`. -/
def spend_vp (db : BalanceDB) (id : ℕ) (amount : ℕ) : Bool × BalanceDB :=
  match findUser db id with
  | none => (false, db)
  | some r =>
      if r.vp < amount then (false, db)
      else (true, updateWhere db id (fun s => { s with vp := s.vp - amount }))

/-- Row comparison used by `ORDER BY total_earned DESC`. -/
def earnedGE (a b : BalRow) : Prop := b.total_earned ≤ a.total_earned

instance : DecidableRel earnedGE := fun _ _ => Nat.decLe _ _

instance : IsTotal BalRow earnedGE := ⟨fun a b => Nat.le_total b.total_earned a.total_earned⟩

instance : IsTrans BalRow earnedGE := ⟨fun _ _ _ h h' => Nat.le_trans h' h⟩

/-- The table sorted by `ORDER BY total_earned DESC`. -/
def sortedByEarned (db : BalanceDB) : BalanceDB :=
  List.insertionSort earnedGE db

/-- Model of `Database.get_leaderboard` (bot.py lines 143-152): `SELECT discord_name,
total_earned FROM vp_balance ORDER BY total_earned DESC LIMIT ?`. -/
def get_leaderboard (db : BalanceDB) (limit : ℕ) : List (String × ℕ) :=
  ((sortedByEarned db).take limit).map (fun r => (r.discord_name, r.total_earned))

/-- One row of the `discord_links` table (bot.py lines 59-67). -/
structure LinkRow where
  discord_id : ℕ
  growid : String
  linked_at : ℕ
  verified : Bool
  pending_code : Option String
deriving DecidableEq, Repr

/-- The `discord_links` table. -/
abbrev LinkDB := List LinkRow

/-- Combined persistent state touched by the command handlers. -/
structure DBState where
  balances : BalanceDB
  links : LinkDB
deriving DecidableEq, Repr

/-- The user-visible replies the modelled handlers can send. -/
inductive Reply
  | alreadyVerified (growid : String)
  | invalidCode
  | verifiedOk (growid : String)
  | permissionDenied
  | notLinkedTarget
  | unlinked (growid : String)
  | notLinkedSelf
  | pendingVerification (growid : String)
  | myLinkInfo (growid : String) (linked_at : ℕ) (vp : ℕ)
  | growidNotLinked (growid : String)
  | whoisInfo (growid : String) (discord_id : ℕ) (linked_at : ℕ) (vp : ℕ)
  | vpInfo (link : Option (String × Bool)) (vp : ℕ) (total : ℕ)
  | leaderboardInfo (entries : List (String × ℕ))
  | helpInfo
deriving DecidableEq, Repr

/-- Normalization `code.strip().upper()` (bot.py line 249): drop leading and trailing
whitespace, then uppercase (ASCII case mapping, per `Char.toUpper`), written
on the character list so it is kernel-computable. -/
def normalizeCode (raw : String) : String :=
  ⟨(((raw.data.dropWhile Char.isWhitespace).reverse.dropWhile
      Char.isWhitespace).reverse).map Char.toUpper⟩

/-- The `SELECT growid, verified FROM discord_links WHERE discord_id=?`
check at bot.py lines 255-258: the growid when the caller already has a
verified link, else `none`. -/
def alreadyVerifiedGrowid (links : LinkDB) (id : ℕ) : Option String :=
  match links.find? (fun r => r.discord_id = id) with
  | some r => if r.verified then some r.growid else none
  | none => none

/-- The link-table `UPDATE` performed by a successful `/verify` (bot.py lines
283-287): every row carrying this pending code is rebound to the submitter,
marked verified, its code cleared and `linked_at` stamped. -/
def consumeCode (links : LinkDB) (id : ℕ) (now : ℕ) (code : String) : LinkDB :=
  links.map (fun r =>
    if r.pending_code = some code then
      { r with discord_id := id, verified := true, pending_code := none,
               linked_at := now }
    else r)

/-- Model of `verify_command` (bot.py lines 245-303).  Normalizes the code; replies
"already verified" if the caller has a verified link; looks up an unverified
row with this pending code (`InvalidCode` if none); otherwise rebinds every
row carrying this pending code to the caller, marks it verified, clears the
code, stamps `linked_at`, and ensures a balance row exists. -/
def verify_command (st : DBState) (id : ℕ) (uname : String) (now : ℕ)
    (raw : String) : Reply × DBState :=
  let code := normalizeCode raw
  match alreadyVerifiedGrowid st.links id with
  | some g => (.alreadyVerified g, st)
  | none =>
      match st.links.find? (fun r => r.pending_code = some code ∧ r.verified = false) with
      | none => (.invalidCode, st)
      | some pending =>
          let links' := consumeCode st.links id now code
          let balances' := (get_or_create_user st.balances id uname now).2
          (.verifiedOk pending.growid, ⟨balances', links'⟩)

/-- Model of `unlink_command` (bot.py lines 305-341): admin-only; rejects non-admins,
reports an unlinked target, otherwise deletes the target's link row. -/
def unlink_command (st : DBState) (callerIsAdmin : Bool) (target_id : ℕ) :
    Reply × DBState :=
  if !callerIsAdmin then (.permissionDenied, st)
  else
    match st.links.find? (fun r => r.discord_id = target_id) with
    | none => (.notLinkedTarget, st)
    | some r =>
        (.unlinked r.growid,
         { st with links := st.links.filter (fun s => ¬ s.discord_id = target_id) })

/-- Model of `mylink_command` (bot.py lines 378-420): read-only report of the caller's
link row. -/
def mylink_command (st : DBState) (id : ℕ) : Reply × DBState :=
  match st.links.find? (fun r => r.discord_id = id) with
  | none => (.notLinkedSelf, st)
  | some r =>
      if !r.verified then (.pendingVerification r.growid, st)
      else (.myLinkInfo r.growid r.linked_at (get_vp st.balances id), st)

/-- Model of `whois_command` (bot.py lines 343-376): read-only lookup of a
GrowID's link row, reporting its Discord id, linked date and VP balance;
with no matching row the reply is the not-linked message.  The Discord user
fetch and embed rendering belong to the external chat platform. -/
def whois_command (st : DBState) (growid : String) : Reply × DBState :=
  match st.links.find? (fun r => r.growid = growid) with
  | none => (.growidNotLinked growid, st)
  | some r =>
      (.whoisInfo growid r.discord_id r.linked_at
        (get_vp st.balances r.discord_id), st)

/-- Model of `vp_command` (bot.py lines 422-476): ensures the caller's
balance row exists, reads the caller's link row, and reports link status,
current VP and total earned.  The live voice-channel bonus field reads
external platform state and is presentation only. -/
def vp_command (st : DBState) (id : ℕ) (uname : String) (now : ℕ) :
    Reply × DBState :=
  let res := get_or_create_user st.balances id uname now
  let link := st.links.find? (fun r => r.discord_id = id)
  (.vpInfo (link.map (fun r => (r.growid, r.verified))) res.1.vp res.1.total_earned,
   { st with balances := res.2 })

/-- Model of `leaderboard_command` (bot.py lines 478-498): the top-10
leaderboard query, rendered as an embed. -/
def leaderboard_command (st : DBState) : Reply × DBState :=
  (.leaderboardInfo (get_leaderboard st.balances 10), st)

/-- Model of `help_command` (bot.py lines 500-565): a static embed; the
handler makes no store access at all. -/
def help_command (st : DBState) : Reply × DBState := (.helpInfo, st)

/-- A sqlite3 call raising inside a handler. -/
inductive StoreErr
  | storeUnavailable
deriving DecidableEq, Repr

/-- Run of `verify_command` against a store that may fail: the handler
body contains no `try/except`, so when a store call raises the exception
propagates out of the handler; nothing converts it to a reply. -/
def verifyRun (storeOk : Bool) (st : DBState) (id : ℕ) (uname : String)
    (now : ℕ) (raw : String) : Except StoreErr (Reply × DBState) :=
  if storeOk then .ok (verify_command st id uname now raw)
  else .error .storeUnavailable

/-- Run of `unlink_command` against a store that may fail; the permission check runs
before any store access (bot.py line 309). -/
def unlinkRun (storeOk : Bool) (st : DBState) (callerIsAdmin : Bool)
    (target_id : ℕ) : Except StoreErr (Reply × DBState) :=
  if !callerIsAdmin then .ok (.permissionDenied, st)
  else if storeOk then .ok (unlink_command st callerIsAdmin target_id)
  else .error .storeUnavailable

/-- Run of `mylink_command` against a store that may fail. -/
def mylinkRun (storeOk : Bool) (st : DBState) (id : ℕ) :
    Except StoreErr (Reply × DBState) :=
  if storeOk then .ok (mylink_command st id) else .error .storeUnavailable

/-- Run of `whois_command` against a store that may fail. -/
def whoisRun (storeOk : Bool) (st : DBState) (growid : String) :
    Except StoreErr (Reply × DBState) :=
  if storeOk then .ok (whois_command st growid) else .error .storeUnavailable

/-- Run of `vp_command` against a store that may fail. -/
def vpRun (storeOk : Bool) (st : DBState) (id : ℕ) (uname : String) (now : ℕ) :
    Except StoreErr (Reply × DBState) :=
  if storeOk then .ok (vp_command st id uname now) else .error .storeUnavailable

/-- Run of `leaderboard_command` against a store that may fail. -/
def leaderboardRun (storeOk : Bool) (st : DBState) :
    Except StoreErr (Reply × DBState) :=
  if storeOk then .ok (leaderboard_command st) else .error .storeUnavailable

/-- Run of `help_command`: the handler performs no store access, so its
reply is sent regardless of store health. -/
def helpRun (_storeOk : Bool) (st : DBState) : Except StoreErr (Reply × DBState) :=
  .ok (help_command st)

/-- Process startup (bot.py lines 568-573): exit status 1 when
`DISCORD_TOKEN` is unset or empty, otherwise run the bot. -/
inductive StartResult
  | exitWithStatus (code : ℕ)
  | runBot
deriving DecidableEq, Repr

def startup (token : Option String) : StartResult :=
  match token with
  | none => .exitWithStatus 1
  | some s => if s = "" then .exitWithStatus 1 else .runBot

/-- Floor of a rational, written on `num`/`den` so the kernel can evaluate it. -/
def ratFloor (q : ℚ) : ℤ := q.num.fdiv q.den

/-- Python `int()` on a rational: truncation toward zero. -/
def pyInt (q : ℚ) : ℤ := q.num.tdiv q.den

theorem ratFloor_eq_floor (q : ℚ) : ratFloor q = ⌊q⌋ := by
  rw [Rat.floor_def, ratFloor]
  exact Int.fdiv_eq_ediv _ (Int.natCast_nonneg _)

theorem pyInt_eq_floor (q : ℚ) (h : 0 ≤ q) : pyInt q = ⌊q⌋ := by
  rw [Rat.floor_def, pyInt]
  exact Int.tdiv_eq_ediv (Rat.num_nonneg.mpr h) (Int.natCast_nonneg _)

/-- One entry of the in-memory `voice_tracking` dict (bot.py line 158). -/
structure VEntry where
  channel_id : ℕ
  joined_at : ℚ
deriving DecidableEq, Repr

/-- The `voice_tracking` dict: association list keyed by discord id, in
insertion order, keys distinct by construction of the operations below. -/
abbrev Tracking := List (ℕ × VEntry)

def trackLookup (t : Tracking) (id : ℕ) : Option VEntry :=
  (t.find? (fun p => p.1 = id)).map Prod.snd

/-- Python dict assignment `voice_tracking[id] = e`: overwrite in place when
the key is present, append otherwise. -/
def trackSet (t : Tracking) (id : ℕ) (e : VEntry) : Tracking :=
  if (t.find? (fun p => p.1 = id)).isSome then
    t.map (fun p => if p.1 = id then (id, e) else p)
  else t ++ [(id, e)]

/-- Python `del voice_tracking[id]` guarded by `if id in voice_tracking`. -/
def trackErase (t : Tracking) (id : ℕ) : Tracking :=
  t.filter (fun p => ¬ p.1 = id)

/-- In-memory + persistent state seen by the voice handler and accrual loop. -/
structure BotState where
  balances : BalanceDB
  tracking : Tracking
deriving DecidableEq, Repr

/-- Model of `on_voice_state_update` (bot.py lines 177-204); `before`/`after` are the
old and new voice channel ids (`none` = in no voice channel). -/
def on_voice_state_update (st : BotState) (id : ℕ) (uname : String)
    (before after : Option ℕ) (now : ℚ) : BotState :=
  match before, after with
  | none, some c =>
      { tracking := trackSet st.tracking id ⟨c, now⟩,
        balances := (get_or_create_user st.balances id uname (pyInt now).toNat).2 }
  | some _, none => { st with tracking := trackErase st.tracking id }
  | some c1, some c2 =>
      if c1 ≠ c2 then { st with tracking := trackSet st.tracking id ⟨c2, now⟩ }
      else st
  | none, none => st

/-- One iteration of the `for` loop in `check_voice_states` (bot.py lines
212-234) on the snapshot pair `(id, entry)`: compute fractional elapsed
minutes; when ≥ 1 and the entry is pinned to the VP channel, credit
`int(minutes_elapsed * VP_PER_MINUTE)` and reset the baseline to `now`.
The gems-channel branch only logs. -/
def tickOne (vpCh : ℕ) (now : ℚ) (st : BotState) (p : ℕ × VEntry) : BotState :=
  let minutes_elapsed : ℚ := (now - p.2.joined_at) / 60
  if 1 ≤ minutes_elapsed then
    if p.2.channel_id = vpCh then
      let vp_earned : ℤ := pyInt (minutes_elapsed * (VP_PER_MINUTE : ℚ))
      if 0 < vp_earned then
        { balances := (add_vp st.balances p.1 vp_earned.toNat (pyInt now).toNat).2,
          tracking := trackSet st.tracking p.1 ⟨p.2.channel_id, now⟩ }
      else st
    else st
  else st

/-- Model of `check_voice_states` (bot.py lines 206-237): iterate the loop body over a
snapshot of the tracking dict taken at entry. -/
def check_voice_states (vpCh : ℕ) (now : ℚ) (st : BotState) : BotState :=
  st.tracking.foldl (tickOne vpCh now) st

/-- Store operations a run of the program can issue against `vp_balance`. -/
inductive StoreOp
  | create (id : ℕ) (name : String) (now : ℕ)
  | credit (id : ℕ) (amount : ℕ) (now : ℕ)
  | debit (id : ℕ) (amount : ℕ)
deriving DecidableEq, Repr

def applyOp (db : BalanceDB) : StoreOp → BalanceDB
  | .create id name now => (get_or_create_user db id name now).2
  | .credit id amount now => (add_vp db id amount now).2
  | .debit id amount => (spend_vp db id amount).2

def applyOps (db : BalanceDB) (ops : List StoreOp) : BalanceDB :=
  ops.foldl applyOp db

/-- The balance-table invariant: current VP never exceeds lifetime earned. -/
def BalInv (db : BalanceDB) : Prop := ∀ r ∈ db, r.vp ≤ r.total_earned

/-- Lifetime-earned VP of an identity (0 when absent). -/
def totalOf (db : BalanceDB) (id : ℕ) : ℕ :=
  match findUser db id with
  | some r => r.total_earned
  | none => 0

end GtpsVp

namespace GtpsVp

example : get_vp [⟨1, "A", 3, 7, 0⟩] 1 = 3 := by decide
example : (spend_vp [⟨1, "A", 3, 7, 0⟩] 1 5).1 = false := by decide
example : (spend_vp [⟨1, "A", 3, 7, 0⟩] 1 2) = (true, [⟨1, "A", 1, 7, 0⟩]) := by decide
example : (add_vp [⟨1, "A", 3, 7, 0⟩] 1 2 9) = (5, [⟨1, "A", 5, 9, 9⟩]) := by decide
example : (add_vp [⟨1, "A", 3, 7, 0⟩] 2 2 9) = (0, [⟨1, "A", 3, 7, 0⟩]) := by decide
example : get_leaderboard [⟨1, "A", 0, 3, 0⟩, ⟨2, "B", 0, 9, 0⟩] 1 = [("B", 9)] := by decide
example :
    (verify_command ⟨[], [⟨0, "Alice", 0, false, some ("ABC123")⟩]⟩ 42 "bob" 99 " abc123 ") =
      (.verifiedOk ("Alice"), ⟨[⟨42, "bob", 0, 0, 99⟩], [⟨42, "Alice", 99, true, none⟩]⟩) := by
  decide

/-! ### Lookup lemmas for the balance table -/

theorem findUser_cons (r : BalRow) (db : BalanceDB) (id : ℕ) :
    findUser (r :: db) id = if r.discord_id = id then some r else findUser db id := by
  by_cases h : r.discord_id = id
  · simp [findUser, List.find?_cons_of_pos, h]
  · simp [findUser, List.find?_cons_of_neg, h]

theorem findUser_nil (id : ℕ) : findUser [] id = none := rfl

theorem findUser_updateWhere (db : BalanceDB) (id id' : ℕ) (f : BalRow → BalRow)
    (hf : ∀ r, (f r).discord_id = r.discord_id) :
    findUser (updateWhere db id f) id' =
      (findUser db id').map (fun r => if r.discord_id = id then f r else r) := by
  induction db with
  | nil => rfl
  | cons r db ih =>
      have hid : (if r.discord_id = id then f r else r).discord_id = r.discord_id := by
        by_cases h : r.discord_id = id <;> simp [h, hf]
      simp only [updateWhere, List.map_cons] at ih ⊢
      rw [findUser_cons, findUser_cons, hid]
      by_cases h' : r.discord_id = id'
      · rw [if_pos h', if_pos h']
        rfl
      · rw [if_neg h', if_neg h']
        exact ih

theorem findUser_updateWhere_self (db : BalanceDB) (id : ℕ) (f : BalRow → BalRow)
    (hf : ∀ r, (f r).discord_id = r.discord_id) (r : BalRow)
    (hr : findUser db id = some r) :
    findUser (updateWhere db id f) id = some (f r) := by
  have hmatch : r.discord_id = id := by
    have := List.find?_some hr
    simpa using this
  rw [findUser_updateWhere db id id f hf, hr]
  simp [hmatch]

theorem findUser_updateWhere_none (db : BalanceDB) (id : ℕ) (f : BalRow → BalRow)
    (hf : ∀ r, (f r).discord_id = r.discord_id)
    (hr : findUser db id = none) :
    findUser (updateWhere db id f) id = none := by
  rw [findUser_updateWhere db id id f hf, hr]; rfl

theorem updateWhere_of_absent (db : BalanceDB) (id : ℕ) (f : BalRow → BalRow)
    (hr : findUser db id = none) :
    updateWhere db id f = db := by
  induction db with
  | nil => rfl
  | cons r db ih =>
      rw [findUser_cons] at hr
      by_cases h : r.discord_id = id
      · rw [if_pos h] at hr
        exact absurd hr (by simp)
      · rw [if_neg h] at hr
        simp only [updateWhere, List.map_cons, if_neg h]
        have := ih hr
        simp only [updateWhere] at this
        rw [this]

theorem findUser_append_right (db : BalanceDB) (r : BalRow) (id : ℕ)
    (hr : findUser db id = none) :
    findUser (db ++ [r]) id = if r.discord_id = id then some r else none := by
  induction db with
  | nil =>
      simp only [List.nil_append, findUser_cons, findUser_nil]
  | cons s db ih =>
      rw [findUser_cons] at hr
      by_cases hs : s.discord_id = id
      · rw [if_pos hs] at hr
        exact absurd hr (by simp)
      · rw [if_neg hs] at hr
        simp only [List.cons_append, findUser_cons, if_neg hs]
        exact ih hr

theorem totalOf_updateWhere (db : BalanceDB) (id id' : ℕ) (f : BalRow → BalRow)
    (hfid : ∀ r, (f r).discord_id = r.discord_id)
    (hft : ∀ r, (f r).total_earned = r.total_earned) :
    totalOf (updateWhere db id f) id' = totalOf db id' := by
  rw [totalOf, totalOf, findUser_updateWhere db id id' f hfid]
  cases h : findUser db id' with
  | none => rfl
  | some r => by_cases hr : r.discord_id = id <;> simp [hr, hft]

theorem add_vp_snd (db : BalanceDB) (id amount now : ℕ) :
    (add_vp db id amount now).2 = updateWhere db id (creditRow amount now) := by
  rcases h : findUser (updateWhere db id (creditRow amount now)) id with _ | r <;>
    simp [add_vp, h]

/-! ### Claim theorems: the balance store -/

/-- C3: for an identity holding a balance record, `debitVP` returns false
and leaves everything unchanged when the amount exceeds the current VP, and
otherwise returns true, decrements current VP by exactly the amount, and
leaves every identity's lifetime-earned untouched. -/
theorem C3_debit_spec (db : BalanceDB) (id amount : ℕ) (r : BalRow)
    (hr : findUser db id = some r) :
    (r.vp < amount → spend_vp db id amount = (false, db)) ∧
    (amount ≤ r.vp →
      (spend_vp db id amount).1 = true ∧
      get_vp (spend_vp db id amount).2 id = r.vp - amount ∧
      (∀ id', totalOf (spend_vp db id amount).2 id' = totalOf db id')) := by
  constructor
  · intro h
    simp [spend_vp, hr, h]
  · intro h
    have hlt : ¬ r.vp < amount := not_lt.mpr h
    refine ⟨by simp [spend_vp, hr, hlt], ?_, ?_⟩
    · have hupd := findUser_updateWhere_self db id
        (fun s => { s with vp := s.vp - amount }) (fun _ => rfl) r hr
      simp [spend_vp, hr, hlt, get_vp, hupd]
    · intro id'
      simp only [spend_vp, hr, hlt, if_false]
      exact totalOf_updateWhere db id id' _ (fun _ => rfl) (fun _ => rfl)

theorem C3_debit_spec_witness :
    spend_vp [⟨1, "A", 3, 7, 0⟩] 1 5 = (false, [⟨1, "A", 3, 7, 0⟩]) ∧
    (spend_vp [⟨1, "A", 3, 7, 0⟩] 1 2).1 = true ∧
    get_vp (spend_vp [⟨1, "A", 3, 7, 0⟩] 1 2).2 1 = 1 := by
  have h5 := C3_debit_spec [⟨1, "A", 3, 7, 0⟩] 1 5 ⟨1, "A", 3, 7, 0⟩ (by decide)
  have h2 := C3_debit_spec [⟨1, "A", 3, 7, 0⟩] 1 2 ⟨1, "A", 3, 7, 0⟩ (by decide)
  refine ⟨h5.1 (by decide), (h2.2 (by decide)).1, ?_⟩
  have := (h2.2 (by decide)).2.1
  simpa using this

/-- C10: `spend_vp` on an identity with no balance record returns false
for every amount (including 0) and changes nothing. -/
theorem C10_debit_absent (db : BalanceDB) (id amount : ℕ)
    (h : findUser db id = none) :
    spend_vp db id amount = (false, db) := by
  simp [spend_vp, h]

theorem C10_debit_absent_witness :
    spend_vp [⟨1, "A", 3, 7, 0⟩] 2 0 = (false, [⟨1, "A", 3, 7, 0⟩]) :=
  C10_debit_absent [⟨1, "A", 3, 7, 0⟩] 2 0 (by decide)

/-- C7: `add_vp` on an identity with no balance record returns 0 and
performs no mutation (in particular creates nothing); on an existing record
it returns the new current balance and adds the amount to both current VP
and lifetime-earned. -/
theorem C7_credit_spec (db : BalanceDB) (id amount now : ℕ) :
    (findUser db id = none → add_vp db id amount now = (0, db)) ∧
    (∀ r, findUser db id = some r →
      (add_vp db id amount now).1 = r.vp + amount ∧
      get_vp (add_vp db id amount now).2 id = r.vp + amount ∧
      totalOf (add_vp db id amount now).2 id = r.total_earned + amount) := by
  constructor
  · intro h
    have hdb := updateWhere_of_absent db id (creditRow amount now) h
    simp [add_vp, hdb, h]
  · intro r hr
    have hupd := findUser_updateWhere_self db id (creditRow amount now)
      (fun _ => rfl) r hr
    simp [add_vp, hupd, get_vp, totalOf, creditRow]

theorem C7_credit_spec_witness :
    add_vp [⟨1, "A", 3, 7, 0⟩] 2 5 9 = (0, [⟨1, "A", 3, 7, 0⟩]) ∧
    (add_vp [⟨1, "A", 3, 7, 0⟩] 1 2 9).1 = 5 ∧
    get_vp (add_vp [⟨1, "A", 3, 7, 0⟩] 1 2 9).2 1 = 5 ∧
    totalOf (add_vp [⟨1, "A", 3, 7, 0⟩] 1 2 9).2 1 = 9 := by
  have habs := (C7_credit_spec [⟨1, "A", 3, 7, 0⟩] 2 5 9).1 (by decide)
  have hpres := (C7_credit_spec [⟨1, "A", 3, 7, 0⟩] 1 2 9).2 ⟨1, "A", 3, 7, 0⟩ (by decide)
  exact ⟨habs, hpres.1, hpres.2.1, hpres.2.2⟩

/-- C6 counterexample: the stored display name is *not* the last-seen
value: activity by an existing identity carrying a new name leaves the old
name in place. -/
theorem C6_counterexample :
    (get_or_create_user [⟨1, "Old", 0, 0, 0⟩] 1 "New" 5).2 = [⟨1, "Old", 0, 0, 0⟩] ∧
    (findUser (get_or_create_user [⟨1, "Old", 0, 0, 0⟩] 1 "New" 5).2 1).map
        BalRow.discord_name = some ("Old") ∧
    ("Old" : String) ≠ "New" := by decide

/-- C6 amended: the display name is fixed at record creation (first-seen
value): `get_or_create_user` on an existing identity changes nothing at all,
on a fresh identity it stores the supplied name, and `add_vp` never touches
any display name. -/
theorem C6_amended_name_first_seen (db : BalanceDB) (id : ℕ) (name : String)
    (now : ℕ) :
    (∀ r, findUser db id = some r → get_or_create_user db id name now = (r, db)) ∧
    (findUser db id = none →
      findUser (get_or_create_user db id name now).2 id = some ⟨id, name, 0, 0, now⟩) ∧
    (∀ amount id', ((add_vp db id' amount now).2).map BalRow.discord_name =
        db.map BalRow.discord_name) := by
  refine ⟨?_, ?_, ?_⟩
  · intro r hr
    simp [get_or_create_user, hr]
  · intro h
    simp only [get_or_create_user, h]
    rw [findUser_append_right db _ id h]
    simp
  · intro amount id'
    rw [add_vp_snd, updateWhere, List.map_map]
    apply List.map_congr_left
    intro r _
    by_cases h : r.discord_id = id' <;> simp [h, creditRow]

theorem C6_amended_name_first_seen_witness :
    get_or_create_user [⟨1, "Old", 0, 0, 0⟩] 1 "New" 5 =
      (⟨1, "Old", 0, 0, 0⟩, [⟨1, "Old", 0, 0, 0⟩]) ∧
    findUser (get_or_create_user [] 1 "New" 5).2 1 = some ⟨1, "New", 0, 0, 5⟩ ∧
    ((add_vp [⟨1, "Old", 0, 0, 0⟩] 1 4 9).2).map BalRow.discord_name = ["Old"] := by
  refine ⟨(C6_amended_name_first_seen [⟨1, "Old", 0, 0, 0⟩] 1 "New" 5).1 _ (by decide),
    (C6_amended_name_first_seen [] 1 "New" 5).2.1 (by decide), ?_⟩
  have := ((C6_amended_name_first_seen [⟨1, "Old", 0, 0, 0⟩] 1 "New" 9).2.2) 4 1
  simpa using this

/-! ### Claim C4: the balance invariant -/

theorem findUser_append_of_some (db l : BalanceDB) (id : ℕ) (r : BalRow)
    (h : findUser db id = some r) : findUser (db ++ l) id = some r := by
  simp [findUser] at h ⊢
  simp [List.find?_append, h]

theorem BalInv_applyOp (db : BalanceDB) (op : StoreOp) (h : BalInv db) :
    BalInv (applyOp db op) := by
  cases op with
  | create id name now =>
      simp only [applyOp, get_or_create_user]
      cases hfind : findUser db id with
      | some r => exact h
      | none =>
          intro r hr
          rcases List.mem_append.mp hr with h1 | h2
          · exact h r h1
          · simp only [List.mem_singleton] at h2
            subst h2
            exact Nat.le_refl 0
  | credit id amount now =>
      have hsnd := add_vp_snd db id amount now
      show BalInv (add_vp db id amount now).2
      rw [hsnd]
      intro r hr
      rw [updateWhere] at hr
      rcases List.mem_map.mp hr with ⟨s, hs, rfl⟩
      by_cases hid : s.discord_id = id
      · simpa [hid, creditRow] using Nat.add_le_add_right (h s hs) amount
      · simpa [hid] using h s hs
  | debit id amount =>
      show BalInv (spend_vp db id amount).2
      cases hfind : findUser db id with
      | none => simpa [spend_vp, hfind] using h
      | some r =>
          by_cases hlt : r.vp < amount
          · simpa [spend_vp, hfind, hlt] using h
          · simp only [spend_vp, hfind, hlt, if_false]
            intro s hs
            rw [updateWhere] at hs
            rcases List.mem_map.mp hs with ⟨u, hu, rfl⟩
            by_cases hid : u.discord_id = id
            · simpa [hid] using Nat.le_trans (Nat.sub_le u.vp amount) (h u hu)
            · simpa [hid] using h u hu

theorem totalOf_applyOp_le (db : BalanceDB) (op : StoreOp) (id' : ℕ) :
    totalOf db id' ≤ totalOf (applyOp db op) id' := by
  cases op with
  | create id name now =>
      simp only [applyOp, get_or_create_user]
      cases hfind : findUser db id with
      | some r => exact Nat.le_refl _
      | none =>
          cases hfind' : findUser db id' with
          | some r =>
              have := findUser_append_of_some db [⟨id, name, 0, 0, now⟩] id' r hfind'
              simp [totalOf, hfind', this]
          | none =>
              have := findUser_append_right db ⟨id, name, 0, 0, now⟩ id' hfind'
              rw [totalOf, totalOf, hfind', this]
              by_cases hxy : id = id' <;> simp [hxy]
  | credit id amount now =>
      show totalOf db id' ≤ totalOf (add_vp db id amount now).2 id'
      rw [add_vp_snd, totalOf, totalOf,
        findUser_updateWhere db id id' (creditRow amount now) (fun _ => rfl)]
      cases hfind' : findUser db id' with
      | none => exact Nat.le_refl _
      | some r =>
          by_cases hid : r.discord_id = id
          · simp [hid, creditRow]
          · simp [hid]
  | debit id amount =>
      show totalOf db id' ≤ totalOf (spend_vp db id amount).2 id'
      cases hfind : findUser db id with
      | none => simp [spend_vp, hfind]
      | some r =>
          by_cases hlt : r.vp < amount
          · simp [spend_vp, hfind, hlt]
          · simp only [spend_vp, hfind, hlt, if_false]
            exact (totalOf_updateWhere db id id' (fun s => { s with vp := s.vp - amount })
              (fun _ => rfl) (fun _ => rfl)).ge

/-- C4: across any sequence of create/credit/debit store operations,
every balance row keeps `vp ≤ total_earned`, and every identity's
lifetime-earned total never decreases. -/
theorem C4_invariant (db : BalanceDB) (ops : List StoreOp) (h : BalInv db) :
    BalInv (applyOps db ops) ∧
    ∀ id, totalOf db id ≤ totalOf (applyOps db ops) id := by
  induction ops generalizing db with
  | nil => exact ⟨h, fun _ => Nat.le_refl _⟩
  | cons op ops ih =>
      have hstep := BalInv_applyOp db op h
      have := ih (applyOp db op) hstep
      refine ⟨this.1, fun id => Nat.le_trans (totalOf_applyOp_le db op id) (this.2 id)⟩

theorem C4_invariant_witness :
    BalInv (applyOps [] [.create 1 "A" 0, .credit 1 5 1, .debit 1 3, .debit 1 9]) ∧
    totalOf [] 1 ≤
      totalOf (applyOps [] [.create 1 "A" 0, .credit 1 5 1, .debit 1 3, .debit 1 9]) 1 :=
  have h := C4_invariant [] [.create 1 "A" 0, .credit 1 5 1, .debit 1 3, .debit 1 9]
    (by intro r hr; cases hr)
  ⟨h.1, h.2 1⟩

/-! ### Claim C8: the leaderboard query -/

theorem sortedByEarned_sorted (db : BalanceDB) :
    (sortedByEarned db).Sorted earnedGE :=
  List.sorted_insertionSort earnedGE db

theorem sortedByEarned_perm (db : BalanceDB) : (sortedByEarned db).Perm db :=
  List.perm_insertionSort earnedGE db

/-- C8: the leaderboard returns at most `limit` entries of
`(displayName, lifetimeEarned)`, in descending lifetime-earned order, every
omitted row scoring no more than every (hence the last) returned entry; the
sorted table is a permutation of the stored table. -/
theorem C8_leaderboard_spec (db : BalanceDB) (limit : ℕ) :
    (get_leaderboard db limit).length ≤ limit ∧
    (get_leaderboard db limit).Chain' (fun a b => b.2 ≤ a.2) ∧
    (∀ r ∈ (sortedByEarned db).drop limit, ∀ p ∈ get_leaderboard db limit,
      r.total_earned ≤ p.2) ∧
    (sortedByEarned db).Perm db := by
  refine ⟨?_, ?_, ?_, sortedByEarned_perm db⟩
  · simp only [get_leaderboard, List.length_map, List.length_take]
    exact min_le_left _ _
  · have hsorted : ((sortedByEarned db).take limit).Pairwise earnedGE :=
      (sortedByEarned_sorted db).sublist (List.take_sublist limit _)
    have : ((sortedByEarned db).take limit).Pairwise
        (fun a b => b.total_earned ≤ a.total_earned) := hsorted
    refine List.Pairwise.chain' ?_
    rw [get_leaderboard, List.pairwise_map]
    exact this
  · intro r hr p hp
    rcases List.mem_map.mp hp with ⟨a, ha, rfl⟩
    have hpair : (sortedByEarned db).Pairwise earnedGE := sortedByEarned_sorted db
    rw [← List.take_append_drop limit (sortedByEarned db)] at hpair
    exact (List.pairwise_append.mp hpair).2.2 a ha r hr

theorem C8_leaderboard_spec_witness :
    (get_leaderboard [⟨1, "A", 0, 3, 0⟩, ⟨2, "B", 0, 9, 0⟩] 1).length ≤ 1 ∧
    (⟨1, "A", 0, 3, 0⟩ : BalRow) ∈
      (sortedByEarned [⟨1, "A", 0, 3, 0⟩, ⟨2, "B", 0, 9, 0⟩]).drop 1 ∧
    ("B", 9) ∈ get_leaderboard [⟨1, "A", 0, 3, 0⟩, ⟨2, "B", 0, 9, 0⟩] 1 ∧
    (3 : ℕ) ≤ 9 := by
  have h := C8_leaderboard_spec [⟨1, "A", 0, 3, 0⟩, ⟨2, "B", 0, 9, 0⟩] 1
  exact ⟨h.1, by decide, by decide, h.2.2.1 ⟨1, "A", 0, 3, 0⟩ (by decide) ("B", 9) (by decide)⟩

/-! ### Claim C9: the presence tracker -/

theorem trackFind_map_set (t : Tracking) (id id' : ℕ) (e : VEntry) :
    (t.map (fun p => if p.1 = id then (id, e) else p)).find?
        (fun p => p.1 = id') =
      (t.find? (fun p => p.1 = id')).map
        (fun p => if p.1 = id then (id, e) else p) := by
  induction t with
  | nil => rfl
  | cons p t ih =>
      have hkey : (if p.1 = id then ((id, e) : ℕ × VEntry) else p).1 = p.1 := by
        by_cases h : p.1 = id <;> simp [h]
      rw [List.map_cons]
      by_cases h' : p.1 = id'
      · rw [List.find?_cons_of_pos _ (by simpa [hkey] using h'),
          List.find?_cons_of_pos _ (by simpa using h')]
        rfl
      · rw [List.find?_cons_of_neg _ (by simpa [hkey] using h'),
          List.find?_cons_of_neg _ (by simpa using h')]
        exact ih

theorem trackLookup_set_self (t : Tracking) (id : ℕ) (e : VEntry) :
    trackLookup (trackSet t id e) id = some e := by
  rw [trackSet]
  by_cases hmem : (t.find? (fun p => p.1 = id)).isSome
  · rw [if_pos hmem, trackLookup, trackFind_map_set]
    rcases Option.isSome_iff_exists.mp hmem with ⟨p, hp⟩
    have := List.find?_some hp
    simp only [decide_eq_true_eq] at this
    simp [hp, this]
  · rw [if_neg hmem, trackLookup]
    have hnone : t.find? (fun p => p.1 = id) = none :=
      Option.not_isSome_iff_eq_none.mp hmem
    rw [List.find?_append, hnone]
    simp

theorem trackLookup_set_other (t : Tracking) (id id' : ℕ) (e : VEntry)
    (h : id' ≠ id) :
    trackLookup (trackSet t id e) id' = trackLookup t id' := by
  rw [trackSet]
  by_cases hmem : (t.find? (fun p => p.1 = id)).isSome
  · rw [if_pos hmem, trackLookup, trackFind_map_set, trackLookup]
    cases hfind : t.find? (fun p => p.1 = id') with
    | none => rfl
    | some p =>
        have hp := List.find?_some hfind
        simp only [decide_eq_true_eq] at hp
        have : ¬ p.1 = id := by rw [hp]; exact h
        simp [this]
  · rw [if_neg hmem, trackLookup, trackLookup, List.find?_append]
    cases hfind : t.find? (fun p => p.1 = id') with
    | some p => rfl
    | none => simp [Ne.symm h]

theorem trackLookup_erase_self (t : Tracking) (id : ℕ) :
    trackLookup (trackErase t id) id = none := by
  rw [trackLookup, trackErase, Option.map_eq_none', List.find?_eq_none]
  intro p hp
  have := (List.mem_filter.mp hp).2
  simpa using this

theorem trackLookup_erase_other (t : Tracking) (id id' : ℕ) (h : id' ≠ id) :
    trackLookup (trackErase t id) id' = trackLookup t id' := by
  rw [trackLookup, trackLookup, trackErase]
  induction t with
  | nil => rfl
  | cons p t ih =>
      by_cases hid : p.1 = id
      · have hne' : ¬ p.1 = id' := by rw [hid]; exact Ne.symm h
        rw [List.filter_cons_of_neg (by simpa using hid),
          List.find?_cons_of_neg _ (by simpa using hne')]
        exact ih
      · rw [List.filter_cons_of_pos (by simpa using hid)]
        by_cases h' : p.1 = id'
        · rw [List.find?_cons_of_pos _ (by simpa using h'),
            List.find?_cons_of_pos _ (by simpa using h')]
        · rw [List.find?_cons_of_neg _ (by simpa using h'),
            List.find?_cons_of_neg _ (by simpa using h')]
          exact ih

/-- C9: the per-identity presence state machine: join installs
`PRESENT(channel, now)`, a channel switch installs `PRESENT(c2, now)`, leave
removes the entry, no event touches any other identity's entry, and the
sequence join, switch, leave leaves no entry for the identity. -/
theorem C9_presence_machine (st : BotState) (id : ℕ)
    (uname uname2 uname3 : String) (c c1 c2 : ℕ) (now now1 now2 now3 : ℚ) :
    (trackLookup (on_voice_state_update st id uname none (some c) now).tracking
        id = some ⟨c, now⟩) ∧
    (c1 ≠ c2 →
      trackLookup (on_voice_state_update st id uname (some c1) (some c2)
        now).tracking id = some ⟨c2, now⟩) ∧
    (trackLookup (on_voice_state_update st id uname (some c) none now).tracking
        id = none) ∧
    (∀ id', id' ≠ id → ∀ b a : Option ℕ,
      trackLookup (on_voice_state_update st id uname b a now).tracking id' =
        trackLookup st.tracking id') ∧
    (c1 ≠ c2 →
      trackLookup (on_voice_state_update (on_voice_state_update
          (on_voice_state_update st id uname none (some c1) now1)
          id uname2 (some c1) (some c2) now2)
          id uname3 (some c2) none now3).tracking id = none) := by
  refine ⟨?_, ?_, ?_, ?_, ?_⟩
  · simp [on_voice_state_update, trackLookup_set_self]
  · intro hne
    simp [on_voice_state_update, hne, trackLookup_set_self]
  · simp [on_voice_state_update, trackLookup_erase_self]
  · intro id' hne b a
    cases b with
    | none =>
        cases a with
        | none => rfl
        | some c' => simp [on_voice_state_update, trackLookup_set_other _ _ _ _ hne]
    | some c1' =>
        cases a with
        | none => simp [on_voice_state_update, trackLookup_erase_other _ _ _ hne]
        | some c2' =>
            by_cases hc : c1' ≠ c2'
            · simp [on_voice_state_update, hc, trackLookup_set_other _ _ _ _ hne]
            · simp [on_voice_state_update, hc]
  · intro _
    simp [on_voice_state_update, trackLookup_erase_self]

theorem C9_presence_machine_witness :
    trackLookup (on_voice_state_update ⟨[], []⟩ 7 "A" none (some 3) 10).tracking
        7 = some ⟨3, 10⟩ ∧
    trackLookup (on_voice_state_update ⟨[], [(7, ⟨3, 10⟩)]⟩ 7 "A" (some 3)
        (some 4) 11).tracking 7 = some ⟨4, 11⟩ ∧
    trackLookup (on_voice_state_update (on_voice_state_update
        (on_voice_state_update ⟨[], []⟩ 7 "A" none (some 3) 10)
        7 "A" (some 3) (some 4) 11) 7 "A" (some 4) none 12).tracking 7 = none := by
  have h1 := C9_presence_machine ⟨[], []⟩ 7 "A" "A" "A" 3 3 4 10 10 11 12
  have h2 := C9_presence_machine ⟨[], [(7, ⟨3, 10⟩)]⟩ 7 "A" "A" "A" 3 3 4 11 10 11 12
  exact ⟨h1.1, h2.2.1 (by decide), h1.2.2.2.2 (by decide)⟩

/-! ### Claim C2: a pending code is consumed at most once -/

theorem verify_success_links (st : DBState) (id : ℕ) (uname : String)
    (now : ℕ) (raw g : String) (st' : DBState)
    (h : verify_command st id uname now raw = (.verifiedOk g, st')) :
    st'.links = consumeCode st.links id now (normalizeCode raw) := by
  simp only [verify_command] at h
  cases hav : alreadyVerifiedGrowid st.links id with
  | some g0 =>
      rw [hav] at h
      simp at h
  | none =>
      rw [hav] at h
      cases hp : st.links.find?
          (fun r => r.pending_code = some (normalizeCode raw) ∧ r.verified = false) with
      | none =>
          rw [hp] at h
          simp at h
      | some pending =>
          rw [hp] at h
          have h2 := congrArg Prod.snd h
          simp only at h2
          rw [← h2, consumeCode]

theorem find?_pending_consumeCode (links : LinkDB) (id : ℕ) (now : ℕ)
    (code : String) :
    (consumeCode links id now code).find?
      (fun r => r.pending_code = some code ∧ r.verified = false) = none := by
  rw [consumeCode, List.find?_eq_none]
  intro x hx
  rcases List.mem_map.mp hx with ⟨r, hr, rfl⟩
  by_cases h : r.pending_code = some code
  · simp [h]
  · simp [h]

/-- C2 counterexample: after a successful verification, a later
submission of the same code by the *winner* is answered `already verified`,
not `InvalidCode`, contradicting the claim that every later submission of the same
code by any identity fails with `InvalidCode`. -/
theorem C2_counterexample :
    (verify_command ⟨[], [⟨0, "Alice", 0, false, some ("ABC123")⟩]⟩
        42 "bob" 99 "ABC123").1 = .verifiedOk ("Alice") ∧
    (verify_command
        (verify_command ⟨[], [⟨0, "Alice", 0, false, some ("ABC123")⟩]⟩
          42 "bob" 99 "ABC123").2
        42 "bob" 100 "ABC123").1 = .alreadyVerified ("Alice") ∧
    Reply.alreadyVerified ("Alice") ≠ Reply.invalidCode := by decide

/-- C2 amended: once a submitter's verification succeeds, no later
submission of the same code (by any identity) can succeed or mutate the
store, and the replies are pinned down: a submitter whose link lookup shows
a verified link — as the winner's does — is answered `already verified`
with that link's growid, and every other submitter is answered
`InvalidCode`. -/
theorem C2_amended_code_single_use (st st' : DBState) (u1 u2 : ℕ)
    (n1 n2 : String) (t1 t2 : ℕ) (raw raw2 g : String)
    (hsucc : verify_command st u1 n1 t1 raw = (.verifiedOk g, st'))
    (hcode : normalizeCode raw2 = normalizeCode raw) :
    (verify_command st' u2 n2 t2 raw2).2 = st' ∧
    (∀ g', (verify_command st' u2 n2 t2 raw2).1 ≠ .verifiedOk g') ∧
    (∀ g', alreadyVerifiedGrowid st'.links u2 = some g' →
      (verify_command st' u2 n2 t2 raw2).1 = .alreadyVerified g') ∧
    (alreadyVerifiedGrowid st'.links u2 = none →
      (verify_command st' u2 n2 t2 raw2).1 = .invalidCode) := by
  have hlinks := verify_success_links st u1 n1 t1 raw g st' hsucc
  cases hav : alreadyVerifiedGrowid st'.links u2 with
  | some g0 =>
      have hrun : verify_command st' u2 n2 t2 raw2 = (.alreadyVerified g0, st') := by
        simp [verify_command, hav]
      rw [hrun]
      refine ⟨rfl, fun g' => by simp, ?_, ?_⟩
      · intro g' hg'
        rw [Option.some.inj hg']
      · intro hnone
        cases hnone
  | none =>
      have hfind : st'.links.find?
          (fun r => r.pending_code = some (normalizeCode raw2) ∧ r.verified = false)
            = none := by
        rw [hlinks, hcode]
        exact find?_pending_consumeCode st.links u1 t1 (normalizeCode raw)
      have hfind' : st'.links.find?
          (fun r => decide (r.pending_code = some (normalizeCode raw2)) && !r.verified)
            = none := by
        simpa using hfind
      have hrun : verify_command st' u2 n2 t2 raw2 = (.invalidCode, st') := by
        simp [verify_command, hav, hfind']
      rw [hrun]
      refine ⟨rfl, fun g' => by simp, ?_, fun _ => rfl⟩
      intro g' hg'
      cases hg'

theorem C2_amended_code_single_use_witness :
    (verify_command ⟨[⟨42, "bob", 0, 0, 99⟩], [⟨42, "Alice", 99, true, none⟩]⟩
        43 "eve" 100 "ABC123").1 = .invalidCode ∧
    (verify_command ⟨[⟨42, "bob", 0, 0, 99⟩], [⟨42, "Alice", 99, true, none⟩]⟩
        43 "eve" 100 "ABC123").2 =
      ⟨[⟨42, "bob", 0, 0, 99⟩], [⟨42, "Alice", 99, true, none⟩]⟩ ∧
    (verify_command ⟨[⟨42, "bob", 0, 0, 99⟩], [⟨42, "Alice", 99, true, none⟩]⟩
        42 "bob" 100 "ABC123").1 = .alreadyVerified ("Alice") ∧
    (verify_command ⟨[⟨42, "bob", 0, 0, 99⟩], [⟨42, "Alice", 99, true, none⟩]⟩
        42 "bob" 100 "ABC123").2 =
      ⟨[⟨42, "bob", 0, 0, 99⟩], [⟨42, "Alice", 99, true, none⟩]⟩ := by
  have hsucc : verify_command ⟨[], [⟨0, "Alice", 0, false, some ("ABC123")⟩]⟩
      42 "bob" 99 "ABC123" =
      (.verifiedOk ("Alice"),
        ⟨[⟨42, "bob", 0, 0, 99⟩], [⟨42, "Alice", 99, true, none⟩]⟩) := by decide
  have h43 := C2_amended_code_single_use
    ⟨[], [⟨0, "Alice", 0, false, some ("ABC123")⟩]⟩
    ⟨[⟨42, "bob", 0, 0, 99⟩], [⟨42, "Alice", 99, true, none⟩]⟩
    42 43 "bob" "eve" 99 100 "ABC123" "ABC123" "Alice" hsucc rfl
  have h42 := C2_amended_code_single_use
    ⟨[], [⟨0, "Alice", 0, false, some ("ABC123")⟩]⟩
    ⟨[⟨42, "bob", 0, 0, 99⟩], [⟨42, "Alice", 99, true, none⟩]⟩
    42 42 "bob" "bob" 99 100 "ABC123" "ABC123" "Alice" hsucc rfl
  exact ⟨h43.2.2.2 (by decide), h43.1, h42.2.2.1 ("Alice") (by decide), h42.1⟩

/-! ### Claim C1: the accrual tick -/

theorem tickOne_preserve (vpCh : ℕ) (now : ℚ) (st : BotState) (p : ℕ × VEntry)
    (id : ℕ) (h : p.1 ≠ id) :
    findUser (tickOne vpCh now st p).balances id = findUser st.balances id ∧
    trackLookup (tickOne vpCh now st p).tracking id =
      trackLookup st.tracking id := by
  rw [tickOne]
  by_cases h1 : 1 ≤ (now - p.2.joined_at) / 60
  · by_cases h2 : p.2.channel_id = vpCh
    · by_cases h3 : 0 < pyInt ((now - p.2.joined_at) / 60 * (VP_PER_MINUTE : ℚ))
      · simp only [h1, h2, h3, if_true, if_pos]
        constructor
        · rw [add_vp_snd, findUser_updateWhere st.balances p.1 id
            (creditRow (pyInt ((now - p.2.joined_at) / 60 *
              (VP_PER_MINUTE : ℚ))).toNat (pyInt now).toNat) (fun _ => rfl)]
          cases hf : findUser st.balances id with
          | none => rfl
          | some r =>
              have hid : r.discord_id = id := by
                have := List.find?_some hf
                simpa using this
              have : ¬ r.discord_id = p.1 := by rw [hid]; exact Ne.symm h
              simp [this]
        · exact trackLookup_set_other st.tracking p.1 id _ (Ne.symm h)
      · simp [h1, h2, h3]
    · simp [h1, h2]
  · simp [h1]

theorem foldl_tick_preserve (vpCh : ℕ) (now : ℚ) (l : List (ℕ × VEntry))
    (st : BotState) (id : ℕ) (h : ∀ p ∈ l, p.1 ≠ id) :
    findUser (l.foldl (tickOne vpCh now) st).balances id =
      findUser st.balances id ∧
    trackLookup (l.foldl (tickOne vpCh now) st).tracking id =
      trackLookup st.tracking id := by
  induction l generalizing st with
  | nil => exact ⟨rfl, rfl⟩
  | cons p l ih =>
      have hp := tickOne_preserve vpCh now st p id (h p (List.mem_cons_self p l))
      have hrest := ih (tickOne vpCh now st p)
        (fun q hq => h q (List.mem_cons_of_mem p hq))
      exact ⟨hrest.1.trans hp.1, hrest.2.trans hp.2⟩

/-- C1 amended: at a tick, every reward-channel presence entry at least a
minute old is credited `⌊elapsedMinutes × ratePerMinute⌋` VP — the *real*
elapsed-minute value is multiplied by the rate before truncation, so partial
minutes contribute whole VP — and its baseline is reset to `now`. -/
theorem C1_amended_accrual (vpCh : ℕ) (now : ℚ) (st : BotState) (id : ℕ)
    (e : VEntry) (r : BalRow)
    (hnodup : (st.tracking.map Prod.fst).Nodup)
    (hmem : (id, e) ∈ st.tracking)
    (hch : e.channel_id = vpCh)
    (helap : 60 ≤ now - e.joined_at)
    (hr : findUser st.balances id = some r) :
    get_vp (check_voice_states vpCh now st).balances id =
      r.vp + (⌊(now - e.joined_at) / 60 * (VP_PER_MINUTE : ℚ)⌋).toNat ∧
    trackLookup (check_voice_states vpCh now st).tracking id =
      some ⟨e.channel_id, now⟩ := by
  obtain ⟨l₁, l₂, hsplit⟩ := List.append_of_mem hmem
  have hmin : 1 ≤ (now - e.joined_at) / 60 := (one_le_div (by norm_num)).mpr helap
  have hq0 : (0 : ℚ) ≤ (now - e.joined_at) / 60 * (VP_PER_MINUTE : ℚ) := by
    have h1 : (0 : ℚ) ≤ (now - e.joined_at) / 60 := le_trans zero_le_one hmin
    positivity
  have hpy : pyInt ((now - e.joined_at) / 60 * (VP_PER_MINUTE : ℚ)) =
      ⌊(now - e.joined_at) / 60 * (VP_PER_MINUTE : ℚ)⌋ := pyInt_eq_floor _ hq0
  have hpos : 0 < pyInt ((now - e.joined_at) / 60 * (VP_PER_MINUTE : ℚ)) := by
    rw [hpy]
    have h2 : (1 : ℚ) ≤ (now - e.joined_at) / 60 * (VP_PER_MINUTE : ℚ) := by
      have : (1 : ℚ) ≤ (VP_PER_MINUTE : ℚ) := by norm_num [VP_PER_MINUTE]
      calc (1 : ℚ) = 1 * 1 := (one_mul 1).symm
        _ ≤ ((now - e.joined_at) / 60) * (VP_PER_MINUTE : ℚ) :=
            mul_le_mul hmin this zero_le_one (le_trans zero_le_one hmin)
    exact lt_of_lt_of_le Int.zero_lt_one (Int.le_floor.mpr (by exact_mod_cast h2))
  -- split the fold around the entry for `id`
  have hkeys : (l₁.map Prod.fst ++ id :: l₂.map Prod.fst).Nodup := by
    have : st.tracking.map Prod.fst = l₁.map Prod.fst ++ id :: l₂.map Prod.fst := by
      rw [hsplit]; simp
    rwa [this] at hnodup
  have hl₁ : ∀ p ∈ l₁, p.1 ≠ id := by
    intro p hp
    have hdisj := (List.nodup_append.mp hkeys).2.2
    exact fun he => hdisj (List.mem_map_of_mem Prod.fst hp) (he ▸ List.mem_cons_self id _)
  have hl₂ : ∀ p ∈ l₂, p.1 ≠ id := by
    intro p hp
    have hnod2 := (List.nodup_append.mp hkeys).2.1
    have := (List.nodup_cons.mp hnod2).1
    exact fun he => this (he ▸ List.mem_map_of_mem Prod.fst hp)
  rw [check_voice_states, hsplit, List.foldl_append, List.foldl_cons]
  set st₁ := l₁.foldl (tickOne vpCh now) st with hst₁
  have hpre := foldl_tick_preserve vpCh now l₁ st id hl₁
  have hr₁ : findUser st₁.balances id = some r := by rw [← hst₁] at hpre; rw [hpre.1, hr]
  -- evaluate the crediting step
  have hstep : tickOne vpCh now st₁ (id, e) =
      { balances := (add_vp st₁.balances id
          (pyInt ((now - e.joined_at) / 60 * (VP_PER_MINUTE : ℚ))).toNat
          (pyInt now).toNat).2,
        tracking := trackSet st₁.tracking id ⟨e.channel_id, now⟩ } := by
    rw [tickOne]
    simp only [hmin, hch, hpos, if_true, if_pos]
  have hstep_bal : findUser (add_vp st₁.balances id
      (pyInt ((now - e.joined_at) / 60 * (VP_PER_MINUTE : ℚ))).toNat
      (pyInt now).toNat).2 id =
      some (creditRow (pyInt ((now - e.joined_at) / 60 * (VP_PER_MINUTE : ℚ))).toNat
        (pyInt now).toNat r) := by
    rw [add_vp_snd]
    exact findUser_updateWhere_self st₁.balances id
      (creditRow (pyInt ((now - e.joined_at) / 60 * (VP_PER_MINUTE : ℚ))).toNat
        (pyInt now).toNat) (fun _ => rfl) r hr₁
  have hpost := foldl_tick_preserve vpCh now l₂ (tickOne vpCh now st₁ (id, e)) id hl₂
  have hfinal : findUser ((l₂.foldl (tickOne vpCh now)
      (tickOne vpCh now st₁ (id, e)))).balances id =
      some (creditRow (pyInt ((now - e.joined_at) / 60 * (VP_PER_MINUTE : ℚ))).toNat
        (pyInt now).toNat r) := by
    rw [hpost.1, hstep]
    exact hstep_bal
  have hfinal2 : trackLookup ((l₂.foldl (tickOne vpCh now)
      (tickOne vpCh now st₁ (id, e)))).tracking id = some ⟨e.channel_id, now⟩ := by
    rw [hpost.2, hstep]
    exact trackLookup_set_self st₁.tracking id ⟨e.channel_id, now⟩
  constructor
  · simp only [get_vp, hfinal]
    simp [creditRow, hpy]
  · exact hfinal2

theorem tick_at_150_eval :
    check_voice_states 5 150 ⟨[⟨7, "A", 0, 0, 0⟩], [(7, ⟨5, 0⟩)]⟩ =
      ⟨[⟨7, "A", 5, 5, 150⟩], [(7, ⟨5, 150⟩)]⟩ := by
  rw [check_voice_states]
  simp only [List.foldl_cons, List.foldl_nil]
  rw [tickOne]
  norm_num [pyInt, VP_PER_MINUTE, add_vp, updateWhere, creditRow, findUser, trackSet]
  exact ⟨rfl, rfl⟩

/-- C1 counterexample: at a tick exactly 2.5 minutes (150 s) after the
baseline with rate 2, the code credits `int(2.5 * 2) = 5` VP, while the
claim's formula `floor(2.5) * 2` gives 4. -/
theorem C1_counterexample :
    get_vp (check_voice_states 5 150
        ⟨[⟨7, "A", 0, 0, 0⟩], [(7, ⟨5, 0⟩)]⟩).balances 7 = 5 ∧
    (ratFloor (((150 : ℚ) - 0) / 60)).toNat * VP_PER_MINUTE = 4 ∧
    (5 : ℕ) ≠ 4 := by
  refine ⟨?_, ?_, by decide⟩
  · rw [tick_at_150_eval]
    decide
  · rw [ratFloor_eq_floor]
    have h60 : ((150 : ℚ) - 0) / 60 = 5 / 2 := by norm_num
    rw [h60]
    have hf : ⌊(5 / 2 : ℚ)⌋ = 2 := by
      rw [Int.floor_eq_iff]; norm_num
    rw [hf]
    decide

theorem C1_amended_accrual_witness :
    get_vp (check_voice_states 5 150
        ⟨[⟨7, "A", 0, 0, 0⟩], [(7, ⟨5, 0⟩)]⟩).balances 7 = 5 ∧
    trackLookup (check_voice_states 5 150
        ⟨[⟨7, "A", 0, 0, 0⟩], [(7, ⟨5, 0⟩)]⟩).tracking 7 = some ⟨5, 150⟩ := by
  have h := C1_amended_accrual 5 150 ⟨[⟨7, "A", 0, 0, 0⟩], [(7, ⟨5, 0⟩)]⟩ 7
    ⟨5, 0⟩ ⟨7, "A", 0, 0, 0⟩ (by decide) (List.mem_cons_self _ _) rfl
    (by norm_num) (by rfl)
  refine ⟨?_, h.2⟩
  rw [h.1]
  norm_num [VP_PER_MINUTE]
  decide

/-! ### Claim C5: error recovery at the command boundary -/

theorem get_vp_get_or_create (db : BalanceDB) (id : ℕ) (name : String)
    (now : ℕ) (i : ℕ) :
    get_vp (get_or_create_user db id name now).2 i = get_vp db i := by
  rw [get_or_create_user]
  cases h : findUser db id with
  | some r => rfl
  | none =>
      simp only
      cases hfi : findUser db i with
      | some s =>
          rw [get_vp, get_vp, findUser_append_of_some db _ i s hfi, hfi]
      | none =>
          rw [get_vp, get_vp, findUser_append_right db _ i hfi, hfi]
          by_cases hii : id = i <;> simp [hii]

theorem verify_command_preserves_vp (st : DBState) (id : ℕ) (uname : String)
    (now : ℕ) (raw : String) (i : ℕ) :
    get_vp (verify_command st id uname now raw).2.balances i =
      get_vp st.balances i := by
  rw [verify_command]
  cases hav : alreadyVerifiedGrowid st.links id with
  | some g => rfl
  | none =>
      simp only
      cases hp : st.links.find? (fun r =>
          r.pending_code = some (normalizeCode raw) ∧ r.verified = false) with
      | none => rfl
      | some pending =>
          simp only
          exact get_vp_get_or_create st.balances id uname now i

theorem vp_command_preserves_vp (st : DBState) (id : ℕ) (uname : String)
    (now : ℕ) (i : ℕ) :
    get_vp (vp_command st id uname now).2.balances i = get_vp st.balances i :=
  get_vp_get_or_create st.balances id uname now i

theorem unlink_command_balances (st : DBState) (admin : Bool) (tid : ℕ) :
    (unlink_command st admin tid).2.balances = st.balances := by
  rw [unlink_command]
  cases admin with
  | false => rfl
  | true =>
      simp only [Bool.not_true, Bool.false_eq_true, if_false]
      cases h : st.links.find? (fun r => r.discord_id = tid) with
      | none => rfl
      | some r => rfl

theorem mylink_command_state (st : DBState) (id : ℕ) :
    (mylink_command st id).2 = st := by
  rw [mylink_command]
  cases h : st.links.find? (fun r => r.discord_id = id) with
  | none => rfl
  | some r =>
      by_cases hv : r.verified <;> simp [hv]

theorem whois_command_state (st : DBState) (growid : String) :
    (whois_command st growid).2 = st := by
  rw [whois_command]
  cases h : st.links.find? (fun r => r.growid = growid) with
  | none => rfl
  | some r => rfl

/-- C5 counterexample: a `StoreUnavailable` failure during `/verify` is
*not* converted into a user-visible reply: no handler contains any exception
recovery, so the error escapes the command handler. -/
theorem C5_counterexample :
    verifyRun false ⟨[], []⟩ 1 "u" 0 "X" = .error .storeUnavailable ∧
    mylinkRun false ⟨[], []⟩ 1 = .error .storeUnavailable := by
  exact ⟨rfl, rfl⟩

/-- C5 amended: all seven command handlers (verify, unlink, whois, mylink,
vp, leaderboard, help) are modelled; with the store up each returns a
user-visible reply (never an escaped error), the `NotFound` conditions of
unlink, mylink and whois as well as `InvalidCode` and `PermissionDenied` are
answered by explicit reply branches with no mutation, the admin check of
`/unlink` and the static `/help` need no store at all, no command ever
decreases any stored balance (so `InsufficientBalance` cannot arise at the
command surface), and the only fatal startup path is a missing or empty
credential; but a `StoreUnavailable` failure escapes every store-touching
handler uncaught. -/
theorem C5_amended_error_recovery (st : DBState) (id tid : ℕ)
    (uname growid : String) (now : ℕ) (raw : String) (admin : Bool) :
    (∃ rep st2, verifyRun true st id uname now raw = .ok (rep, st2)) ∧
    (∃ rep st2, unlinkRun true st admin tid = .ok (rep, st2)) ∧
    (∃ rep st2, mylinkRun true st id = .ok (rep, st2)) ∧
    (∃ rep st2, whoisRun true st growid = .ok (rep, st2)) ∧
    (∃ rep st2, vpRun true st id uname now = .ok (rep, st2)) ∧
    (leaderboardRun true st =
      .ok (.leaderboardInfo (get_leaderboard st.balances 10), st)) ∧
    (∀ ok : Bool, helpRun ok st = .ok (.helpInfo, st)) ∧
    (alreadyVerifiedGrowid st.links id = none →
      st.links.find? (fun r => r.pending_code = some (normalizeCode raw) ∧
        r.verified = false) = none →
      verifyRun true st id uname now raw = .ok (.invalidCode, st)) ∧
    (admin = false → ∀ ok : Bool, unlinkRun ok st admin tid = .ok (.permissionDenied, st)) ∧
    (st.links.find? (fun r => r.discord_id = tid) = none →
      unlinkRun true st true tid = .ok (.notLinkedTarget, st)) ∧
    (st.links.find? (fun r => r.discord_id = id) = none →
      mylinkRun true st id = .ok (.notLinkedSelf, st)) ∧
    (st.links.find? (fun r => r.growid = growid) = none →
      whoisRun true st growid = .ok (.growidNotLinked growid, st)) ∧
    (∀ i, get_vp (verify_command st id uname now raw).2.balances i =
      get_vp st.balances i) ∧
    (∀ i, get_vp (vp_command st id uname now).2.balances i = get_vp st.balances i) ∧
    ((unlink_command st admin tid).2.balances = st.balances ∧
      (mylink_command st id).2 = st ∧ (whois_command st growid).2 = st ∧
      (leaderboard_command st).2 = st ∧ (help_command st).2 = st) ∧
    startup none = .exitWithStatus 1 ∧
    startup (some ("")) = .exitWithStatus 1 ∧
    (∀ s : String, s ≠ "" → startup (some s) = .runBot) := by
  refine ⟨⟨(verify_command st id uname now raw).1,
      (verify_command st id uname now raw).2, rfl⟩,
    ⟨(unlink_command st admin tid).1, (unlink_command st admin tid).2, ?_⟩,
    ⟨(mylink_command st id).1, (mylink_command st id).2, rfl⟩,
    ⟨(whois_command st growid).1, (whois_command st growid).2, rfl⟩,
    ⟨(vp_command st id uname now).1, (vp_command st id uname now).2, rfl⟩,
    rfl, fun _ => rfl,
    ?_, ?_, ?_, ?_, ?_,
    verify_command_preserves_vp st id uname now raw,
    vp_command_preserves_vp st id uname now,
    ⟨unlink_command_balances st admin tid, mylink_command_state st id,
      whois_command_state st growid, rfl, rfl⟩,
    rfl, rfl, ?_⟩
  · cases admin with
    | false => rfl
    | true => rfl
  · intro hav hfind
    have hfind' : st.links.find?
        (fun r => decide (r.pending_code = some (normalizeCode raw)) && !r.verified)
          = none := by
      simpa using hfind
    simp [verifyRun, verify_command, hav, hfind']
  · intro hadmin ok
    subst hadmin
    cases ok with
    | false => rfl
    | true => rfl
  · intro hfind
    simp [unlinkRun, unlink_command, hfind]
  · intro hfind
    simp [mylinkRun, mylink_command, hfind]
  · intro hfind
    simp [whoisRun, whois_command, hfind]
  · intro s hs
    simp [startup, hs]

theorem C5_amended_error_recovery_witness :
    verifyRun true ⟨[], []⟩ 1 "u" 0 "X" = .ok (.invalidCode, ⟨[], []⟩) ∧
    unlinkRun false ⟨[], []⟩ false 2 = .ok (.permissionDenied, ⟨[], []⟩) ∧
    unlinkRun true ⟨[], []⟩ true 2 = .ok (.notLinkedTarget, ⟨[], []⟩) ∧
    mylinkRun true ⟨[], []⟩ 1 = .ok (.notLinkedSelf, ⟨[], []⟩) ∧
    whoisRun true ⟨[], []⟩ ("G") = .ok (.growidNotLinked ("G"), ⟨[], []⟩) ∧
    helpRun false ⟨[], []⟩ = .ok (.helpInfo, ⟨[], []⟩) ∧
    leaderboardRun true ⟨[], []⟩ = .ok (.leaderboardInfo [], ⟨[], []⟩) ∧
    get_vp (vp_command ⟨[], []⟩ 1 "u" 0).2.balances 1 = get_vp ([] : BalanceDB) 1 ∧
    startup none = .exitWithStatus 1 ∧
    startup (some ("token")) = .runBot := by
  obtain ⟨h1, h2, h3, h4, h5, h6, h7, h8, h9, h10, h11, h12, h13, h14, h15,
    h16, h17, h18⟩ := C5_amended_error_recovery ⟨[], []⟩ 1 2 "u" "G" 0 "X" false
  exact ⟨h8 (by decide) (by decide), h9 rfl false, h10 (by decide),
    h11 (by decide), h12 (by decide), h7 false, h6, h14 1, h16,
    h18 ("token") (by decide)⟩

end GtpsVp
